import Mathlib

/-
Verification development for the Canada Fraud Watch dashboard
(interactive cartography final project).

Shallow embedding of the client-side aggregation and rendering pipeline:

* `src/js/overview.js`   : pre-aggregated trend variant (normalizeRegion,
  filteredMapByYearRows, aggregateByYear, aggregateByProvince, updateMap,
  updateTrendChart, updateBarChart, updateAll).
* `src/js/comparison.js` : dual-map comparison variant (countByField,
  groupRare, drawMap fills).
* `src/js/main.js`       : date-range variant (updatePieChart top-N folding,
  updateControls date-window recovery).

JavaScript numbers are modelled as exact rationals (`Rat`); all record and
aggregate values in scope are small integers or integer dollar amounts, so
the float/rational distinction does not affect the control flow verified
here.  DOM state touched by the renderers is modelled explicitly as data
(lists of keyed elements), with d3's keyed data-join semantics (update in
document order, exit removed, enter appended) spelled out as a function.
-/

namespace FraudWatch

/-- The selectable metric: `"cases" | "loss"` in the source. -/
inductive Metric where
  | cases
  | loss
deriving DecidableEq, Repr

/-- One row of `fraudData.mapByYear` as loaded (overview.js), before
`preprocessData` attaches `regionNormalized`. -/
structure RawRow where
  region : String
  year : Int
  gender : String
  ageRange : String
  cases : Rat
  loss : Rat
deriving DecidableEq, Repr

/-- A `mapByYear` row after `preprocessData` (overview.js lines 96-100):
the numeric coercions `+d.cases` / `+d.loss` are identities here, and
`regionNormalized` carries `normalizeRegion(d.region)` (`null` = `none`). -/
structure ProcRow where
  region : String
  year : Int
  gender : String
  ageRange : String
  cases : Rat
  loss : Rat
  regionNormalized : Option String
deriving DecidableEq, Repr

/-- JavaScript `String.prototype.toLowerCase` on the names in scope
(ASCII): lower-case every character. -/
def jsToLower (s : String) : String :=
  ⟨s.data.map Char.toLower⟩

/-- `normalizeRegion` (overview.js lines 75-94).  `provinces` is the
boundary file's `provinceNameSet` in insertion order; the JS
`for (const full of provinceNameSet)` loop returning the first
case-insensitive match is `List.find?`.  A falsy (`""`) input and a
no-match lookup both give `none` (`null` in the source). -/
def normalizeRegion (provinces : List String) (raw : String) : Option String :=
  if raw = "" then none
  else
    let candidate :=
      if raw = "Newfoundland And Labrador" then "Newfoundland and Labrador"
      else if raw = "North West Territories" ∨ raw = "Northwest Territories" then
        "Northwest Territories"
      else raw
    let lower := jsToLower candidate
    provinces.find? (fun full => jsToLower full == lower)

/-- `preprocessData`'s per-row effect (overview.js lines 96-100). -/
def preprocessRow (provinces : List String) (r : RawRow) : ProcRow :=
  { region := r.region
    year := r.year
    gender := r.gender
    ageRange := r.ageRange
    cases := r.cases
    loss := r.loss
    regionNormalized := normalizeRegion provinces r.region }

/-- `preprocessData` over the whole `mapByYear` array. -/
def preprocess (provinces : List String) (rows : List RawRow) : List ProcRow :=
  rows.map (preprocessRow provinces)

/-- The overview dashboard's filter state: `selectedMetric`,
`selectedGender`, `selectedAge`, `selectedYear` (with `none` = all years). -/
structure FilterState where
  metric : Metric
  gender : String
  age : String
  year : Option Int
deriving DecidableEq, Repr

/-- `d[selectedMetric]` field access. -/
def metricValue (m : Metric) (r : ProcRow) : Rat :=
  match m with
  | Metric.cases => r.cases
  | Metric.loss => r.loss

/-- `filteredMapByYearRows(filterYear)` (overview.js lines 227-237): keep
rows with a non-null normalized region, matching the year filter when one
is given and the categorical filters unless they are `"ALL"`. -/
def filteredMapByYearRows (rows : List ProcRow) (st : FilterState)
    (filterYear : Option Int) : List ProcRow :=
  rows.filter (fun d =>
    d.regionNormalized.isSome &&
    (match filterYear with
     | none => true
     | some y => d.year == y) &&
    (st.gender == "ALL" || d.gender == st.gender) &&
    (st.age == "ALL" || d.ageRange == st.age))

/-- One point of the by-year aggregation (`{ year, value }`). -/
structure YearBucket where
  year : Int
  value : Rat
deriving DecidableEq, Repr

/-- One bucket of the by-province aggregation (`{ province, value }`). -/
structure ProvinceBucket where
  province : String
  value : Rat
deriving DecidableEq, Repr

/-- `aggregateByYear()` (overview.js lines 239-247): one entry per element
of `meta.years`, whose value is the metric summed over the rows passing
the filters for that year.  The JS `total || 0` only maps `0` to `0` on
exact arithmetic, so the value is the sum itself. -/
def aggregateByYear (metaYears : List Int) (rows : List ProcRow)
    (st : FilterState) : List YearBucket :=
  metaYears.map (fun y =>
    { year := y
      value := ((filteredMapByYearRows rows st (some y)).map
        (metricValue st.metric)).sum })

/-- `aggregateByProvince(filterYear)` (overview.js lines 249-263): group the
filtered rows by `regionNormalized` (`d3.rollup` with a sum reducer), then
emit one bucket per canonical province with `grouped.get(name) || 0`.
A rollup group for `name` is exactly the filtered rows whose normalized
region is `name`, and a missing group contributes the empty sum `0`. -/
def aggregateByProvince (provinces : List String) (rows : List ProcRow)
    (st : FilterState) (filterYear : Option Int) : List ProvinceBucket :=
  let rowsF := filteredMapByYearRows rows st filterYear
  provinces.map (fun name =>
    { province := name
      value := ((rowsF.filter (fun d => d.regionNormalized == some name)).map
        (metricValue st.metric)).sum })

/-- A `{ key, val }` bucket as produced by `countByField` and consumed by
`groupRare` (comparison.js). -/
structure GBucket where
  key : String
  val : Rat
deriving DecidableEq, Repr

/-- `d3.rollup(data, v => v.length, key)` over a list of key strings:
group in first-appearance order and count occurrences. -/
def rollupCounts (keys : List String) : List (String × Nat) :=
  keys.foldl
    (fun acc k =>
      if acc.any (fun p => p.1 == k) then
        acc.map (fun p => if p.1 == k then (p.1, p.2 + 1) else p)
      else acc ++ [(k, 1)])
    []

/-- `countByField(data, field)` (comparison.js lines 346-353): count
occurrences of the field value, with a falsy (empty) value replaced by
`"Not Available"`.  The argument is the list of field values of the rows. -/
def countByField (vals : List String) : List GBucket :=
  (rollupCounts (vals.map (fun v => if v = "" then "Not Available" else v))).map
    (fun p => { key := p.1, val := (p.2 : Rat) })

/-- `groupRare(arr)` (comparison.js lines 356-370): split at the 2.5%
cutoff of the total, keep the groups at or above it, and append a single
`"Others"` bucket holding the below-cutoff mass when that mass is
positive. -/
def groupRare (arr : List GBucket) : List GBucket :=
  let total := (arr.map (fun d => d.val)).sum
  let cutoff := total * (1 / 40 : Rat)
  let major := arr.filter (fun d => decide (cutoff ≤ d.val))
  let minor := arr.filter (fun d => decide (d.val < cutoff))
  let minorTotal := (minor.map (fun d => d.val)).sum
  if 0 < minorTotal then major ++ [{ key := "Others", val := minorTotal }] else major

/-- The `total` local of `groupRare` (comparison.js line 357). -/
def grTotal (arr : List GBucket) : Rat :=
  (arr.map (fun d => d.val)).sum

/-- The `cutoff` local of `groupRare` (comparison.js line 358): 2.5% of
the total. -/
def grCutoff (arr : List GBucket) : Rat :=
  grTotal arr * (1 / 40 : Rat)

/-- The `major` local of `groupRare` (comparison.js line 360). -/
def grMajor (arr : List GBucket) : List GBucket :=
  arr.filter (fun d => decide (grCutoff arr ≤ d.val))

/-- The `minor` local of `groupRare` (comparison.js line 361). -/
def grMinor (arr : List GBucket) : List GBucket :=
  arr.filter (fun d => decide (d.val < grCutoff arr))

/-- The `minorTotal` local of `groupRare` (comparison.js line 363). -/
def grMinorSum (arr : List GBucket) : Rat :=
  ((grMinor arr).map (fun d => d.val)).sum

/-- A `{ key, value }` count bucket of main.js's `updatePieChart`. -/
structure CountBucket where
  key : String
  value : Nat
deriving DecidableEq, Repr

/-- The top-N overflow folding inside `updatePieChart` (main.js lines
329-333): `aggregated.slice(0, 20)`, and when more than 20 groups exist a
final `"Others"` bucket holding the sum of the remainder. -/
def topNFold (aggregated : List CountBucket) : List CountBucket :=
  let topN := aggregated.take 20
  if 20 < aggregated.length then
    topN ++ [{ key := "Others", value := ((aggregated.drop 20).map (fun d => d.value)).sum }]
  else topN

/-- Insertion step of a stable descending sort on counts. -/
def insertCountDesc (x : CountBucket) : List CountBucket → List CountBucket
  | [] => [x]
  | y :: ys => if y.value ≤ x.value then x :: y :: ys else y :: insertCountDesc x ys

/-- Stable descending sort by count, modelling the JS
`sort((a, b) => d3.descending(a.value, b.value))`. -/
def sortCountDesc : List CountBucket → List CountBucket
  | [] => []
  | x :: xs => insertCountDesc x (sortCountDesc xs)

/-- The data-preparation pipeline of `updatePieChart` (main.js lines
324-335): rollup counts of the accessor values (falsy key replaced by
`"Unknown"`), sort descending by count, then fold the overflow. -/
def updatePieData (vals : List String) : List CountBucket :=
  topNFold (sortCountDesc
    ((rollupCounts vals).map (fun p =>
      { key := if p.1 = "" then "Unknown" else p.1, value := p.2 })))

/-- A rendered fill attribute: either a literal CSS color string or the
sequential color scale (`d3.scaleSequential().domain([0, domainMax])`)
applied to a value.  Distinct constructors model distinct fills. -/
inductive FillSpec where
  | css (color : String)
  | seqScale (domainMax : Rat) (v : Rat)
deriving DecidableEq, Repr

/-- `d3.max` over rationals: `none` on the empty list, otherwise the
maximum. -/
def d3maxQ (l : List Rat) : Option Rat :=
  l.foldl
    (fun acc v =>
      match acc with
      | none => some v
      | some m => some (max m v))
    none

/-- `const maxVal = d3.max(provinceValues, d => d.value) || 0` in
`updateMap` (overview.js line 270). -/
def mapMaxVal (provinces : List String) (rows : List ProcRow)
    (st : FilterState) : Rat :=
  (d3maxQ ((aggregateByProvince provinces rows st st.year).map
    (fun d => d.value))).getD 0

/-- `valueByProvince.get(pname) || 0` in `updateMap` (overview.js lines
277-279, 292): look the province up in the by-province aggregation. -/
def provinceValueOf (provinces : List String) (rows : List ProcRow)
    (st : FilterState) (pname : String) : Rat :=
  (((aggregateByProvince provinces rows st st.year).find?
    (fun d => d.province == pname)).map (fun d => d.value)).getD 0

/-- The fill rule of overview.js `updateMap` (lines 272-275 and 290-294):
scale domain `[0, maxVal || 1]`, and `v > 0 ? color(v) : "#e5e7eb"`. -/
def overviewFillFor (maxVal v : Rat) : FillSpec :=
  if 0 < v then FillSpec.seqScale (if maxVal = 0 then 1 else maxVal) v
  else FillSpec.css "#e5e7eb"

/-- One boundary feature as the renderers see it (`properties.PRUID`,
`properties.PRENAME`, `properties.PREABBR`). -/
structure Feature where
  pruid : String
  prename : String
  preabbr : String
deriving DecidableEq, Repr

/-- The fills `updateMap` assigns to the map's province paths, keyed by
`PRENAME` (overview.js lines 282-294). -/
def updateMapFills (provinces : List String) (rows : List ProcRow)
    (st : FilterState) (features : List Feature) : List (String × FillSpec) :=
  features.map (fun f =>
    (f.prename,
     overviewFillFor (mapMaxVal provinces rows st)
       (provinceValueOf provinces rows st f.prename)))

/-- `valueByProv[name] || 0` lookup used by comparison.js `drawMap`. -/
def lookupValD (valueByProv : List (String × Rat)) (name : String) : Rat :=
  ((valueByProv.find? (fun p => p.1 == name)).map (fun p => p.2)).getD 0

/-- The fill comparison.js `drawMap` assigns to a province path (lines
218-225): always `colorScale(valueByProv[name] || 0)`, with no special
case for zero values. -/
def comparisonMapFill (valueByProv : List (String × Rat)) (maxVal : Rat)
    (name : String) : FillSpec :=
  FillSpec.seqScale maxVal (lookupValD valueByProv name)

/-- One `path.map-province` element of the overview map as the keyed data
join leaves it: the bound datum, the feature whose geometry the `d`
attribute was computed from at enter time, and the current fill. -/
structure MapPathElem where
  datum : Feature
  shape : Feature
  fill : FillSpec
deriving DecidableEq, Repr

/-- The `updateMap` data join on `path.map-province`, keyed by `PRUID`
(overview.js lines 282-316): existing elements whose key is still bound
are updated in document order (datum rebound, fill recomputed, geometry
kept), exit elements are removed, and enter elements are appended at the
end with geometry and fill computed from their feature. -/
def updateMapDom (provinces : List String) (rows : List ProcRow)
    (st : FilterState) (features : List Feature)
    (dom : List MapPathElem) : List MapPathElem :=
  (dom.filterMap (fun e =>
    (features.find? (fun f => f.pruid == e.datum.pruid)).map
      (fun f => { e with datum := f
                         fill := overviewFillFor (mapMaxVal provinces rows st)
                           (provinceValueOf provinces rows st f.prename) })))
  ++ ((features.filter (fun f =>
        !(dom.any (fun e => e.datum.pruid == f.pruid)))).map
      (fun f => { datum := f, shape := f
                  fill := overviewFillFor (mapMaxVal provinces rows st)
                    (provinceValueOf provinces rows st f.prename) }))

/-- Insertion step of a stable descending sort on province values. -/
def insertProvDesc (x : ProvinceBucket) :
    List ProvinceBucket → List ProvinceBucket
  | [] => [x]
  | y :: ys => if y.value ≤ x.value then x :: y :: ys else y :: insertProvDesc x ys

/-- Stable descending sort modelling
`sort((a, b) => d3.descending(a.value, b.value))` on province buckets. -/
def sortProvDesc : List ProvinceBucket → List ProvinceBucket
  | [] => []
  | x :: xs => insertProvDesc x (sortProvDesc xs)

/-- The bar-chart data of `updateBarChart` (overview.js lines 442-445):
positive-value provinces, sorted descending, top 8.  The chart subtree is
cleared (`barSvg.selectAll("*").remove()`) and rebuilt from exactly this
list, so the rebuilt subtree is a pure function of it. -/
def updateBarData (provinces : List String) (rows : List ProcRow)
    (st : FilterState) : List ProvinceBucket :=
  (sortProvDesc ((aggregateByProvince provinces rows st st.year).filter
    (fun d => decide (0 < d.value)))).take 8

/-- The overview dashboard's rendered state that `updateAll` touches: the
map path elements (keyed join), the trend chart subtree (cleared and
rebuilt from `aggregateByYear`), the bar chart subtree (cleared and
rebuilt from `updateBarData`), and the subtitle text. -/
structure OverviewDom where
  mapPaths : List MapPathElem
  trend : List YearBucket
  bars : List ProvinceBucket
  mapSubtitle : String
deriving DecidableEq, Repr

/-- The subtitle text set by `updateMap` (overview.js lines 336-343). -/
def mapSubtitleText (st : FilterState) : String :=
  let genderText := if st.gender = "ALL" then "All genders" else "Gender: " ++ st.gender
  let ageText := if st.age = "ALL" then "All age ranges" else "Age: " ++ st.age
  let yearText :=
    match st.year with
    | none => "All years"
    | some y => "Year: " ++ toString y
  yearText ++ " 路 " ++ genderText ++ " 路 " ++ ageText

/-- `updateAll()` (overview.js lines 218-222): recompute every aggregation
from the current filter state and redraw the map (keyed join), the trend
chart and the bar chart (both cleared and rebuilt). -/
def updateAllDom (provinces : List String) (metaYears : List Int)
    (rows : List ProcRow) (st : FilterState) (features : List Feature)
    (dom : OverviewDom) : OverviewDom :=
  { mapPaths := updateMapDom provinces rows st features dom.mapPaths
    trend := aggregateByYear metaYears rows st
    bars := updateBarData provinces rows st
    mapSubtitle := mapSubtitleText st }

/-- A calendar date as `%Y-%m-%d` data, ordered lexicographically the way
JS `Date` values of those fields compare. -/
structure SDate where
  y : Int
  m : Int
  d : Int
deriving DecidableEq, Repr

/-- Date comparison (`<=` on the underlying JS time values). -/
def SDate.le (a b : SDate) : Bool :=
  a.y < b.y || (a.y == b.y && (a.m < b.m || (a.m == b.m && a.d ≤ b.d)))

/-- One incident record of main.js after load (lines 107-117). -/
structure MainRecord where
  date : SDate
  gender : String
  ageRange : String
  region : String
  dollarLoss : Rat
deriving DecidableEq, Repr

/-- `d3.max(data, d => d.date)` (main.js line 121): latest record date,
`none` when there are no records. -/
def maxDateOf (dates : List SDate) : Option SDate :=
  dates.foldl
    (fun acc dt =>
      match acc with
      | none => some dt
      | some m => some (if SDate.le m dt then dt else m))
    none

/-- `d3.timeYear.offset(defaultMaxDate, -1)` (main.js line 122): same
month and day, one year earlier. -/
def oneYearBefore (dt : SDate) : SDate :=
  { dt with y := dt.y - 1 }

/-- The effective date window of `updateControls` (main.js lines 669-686):
start from the default trailing-12-month window and replace it with the
parsed inputs only when both inputs are non-empty, both parse, and the
start is not after the end.  `parse` models `d3.timeParse("%Y-%m-%d")`. -/
def effectiveWindow (parse : String → Option SDate) (defStart defEnd : SDate)
    (startVal endVal : String) : SDate × SDate :=
  if startVal ≠ "" ∧ endVal ≠ "" then
    match parse startVal, parse endVal with
    | some s, some e => if SDate.le s e then (s, e) else (defStart, defEnd)
    | some _, none => (defStart, defEnd)
    | none, some _ => (defStart, defEnd)
    | none, none => (defStart, defEnd)
  else (defStart, defEnd)

/-- The filtered record set of `updateControls` (main.js lines 663-698):
records inside the effective date window that pass the demographic
filters.  When the data set is empty the handler returns early. -/
def updateControlsFiltered (parse : String → Option SDate)
    (data : List MainRecord) (gender age region : String)
    (startVal endVal : String) : List MainRecord :=
  match maxDateOf (data.map (fun d => d.date)) with
  | none => []
  | some maxD =>
    let w := effectiveWindow parse (oneYearBefore maxD) maxD startVal endVal
    data.filter (fun d =>
      SDate.le w.1 d.date && SDate.le d.date w.2 &&
      (gender == "all" || d.gender == gender) &&
      (age == "all" || d.ageRange == age) &&
      (region == "all" || d.region == region))

/-- One point of the main.js trend chart's yearly aggregation
(`{ year, cases, loss }`, updateTrendChart lines 463-473). -/
structure TrendPoint where
  year : Int
  cases : Nat
  loss : Rat
deriving DecidableEq, Repr

/-- The `d3.rollup` inside main.js `updateTrendChart` (lines 463-472):
group the demographically filtered records by `d.date.getFullYear()` in
first-appearance order, counting cases (`v.length`) and summing
`dollarLoss` per year; `year: +year` is the identity on integers.  An
entry exists only for years that occur in the records. -/
def trendRollup (demoFiltered : List MainRecord) : List TrendPoint :=
  demoFiltered.foldl
    (fun acc d =>
      if acc.any (fun p => p.year == d.date.y) then
        acc.map (fun p =>
          if p.year == d.date.y then
            { p with cases := p.cases + 1, loss := p.loss + d.dollarLoss }
          else p)
      else acc ++ [{ year := d.date.y, cases := 1, loss := d.dollarLoss }])
    []

/-- Insertion step of a stable ascending sort on trend years. -/
def insertYearAsc (x : TrendPoint) : List TrendPoint → List TrendPoint
  | [] => [x]
  | y :: ys => if x.year ≤ y.year then x :: y :: ys else y :: insertYearAsc x ys

/-- Stable ascending sort modelling the JS
`sort((a, b) => d3.ascending(a.year, b.year))` on trend points. -/
def sortYearAsc : List TrendPoint → List TrendPoint
  | [] => []
  | x :: xs => insertYearAsc x (sortYearAsc xs)

/-- The `yearly` array of main.js `updateTrendChart` (lines 462-473):
rollup by year, then sort ascending by year. -/
def updateTrendYearly (demoFiltered : List MainRecord) : List TrendPoint :=
  sortYearAsc (trendRollup demoFiltered)

/-- The `demoFiltered` record set feeding `updateTrendChart` (main.js
lines 740-746): demographic filters only, no date filtering. -/
def demoFilteredRecords (data : List MainRecord) (gender age region : String) :
    List MainRecord :=
  data.filter (fun d =>
    (gender == "all" || d.gender == gender) &&
    (age == "all" || d.ageRange == age) &&
    (region == "all" || d.region == region))

/-- Canonical province list used for concrete instantiations: a subset of
the boundary file's `PRENAME` values. -/
def sampleProvinces : List String :=
  ["Ontario", "Quebec", "Manitoba", "Northwest Territories",
   "Newfoundland and Labrador"]

/-- The spec's test scenario rows: Ontario/2020/$100, Ontario/2021/$200,
Quebec/2021/$50, each one case. -/
def sampleRaws : List RawRow :=
  [{ region := "Ontario", year := 2020, gender := "Male", ageRange := "30-39",
     cases := 1, loss := 100 },
   { region := "Ontario", year := 2021, gender := "Female", ageRange := "40-49",
     cases := 1, loss := 200 },
   { region := "Quebec", year := 2021, gender := "Male", ageRange := "30-39",
     cases := 1, loss := 50 }]

/-- The scenario rows after `preprocessData`. -/
def sampleRows : List ProcRow :=
  preprocess sampleProvinces sampleRaws

/-- Filter state of the scenario: metric = loss, no categorical filters,
all years. -/
def lossAllState : FilterState :=
  { metric := Metric.loss, gender := "ALL", age := "ALL", year := none }

/-- Filter state for map-rendering instantiations: metric = cases, no
categorical filters, year 2021. -/
def mapSampleState : FilterState :=
  { metric := Metric.cases, gender := "ALL", age := "ALL", year := some 2021 }

/-- Boundary features for concrete instantiations (PRUID, PRENAME,
PREABBR). -/
def sampleFeatures : List Feature :=
  [{ pruid := "35", prename := "Ontario", preabbr := "Ont." },
   { pruid := "24", prename := "Quebec", preabbr := "Que." },
   { pruid := "46", prename := "Manitoba", preabbr := "Man." }]

/-- Raw-record data for the date-range variant: one male-reported case in
2020 and one female-reported case in 2021. -/
def trendSampleData : List MainRecord :=
  [{ date := { y := 2020, m := 5, d := 1 }, gender := "Male",
     ageRange := "30-39", region := "Ontario", dollarLoss := 100 },
   { date := { y := 2021, m := 6, d := 2 }, gender := "Female",
     ageRange := "40-49", region := "Quebec", dollarLoss := 50 }]

end FraudWatch

namespace FraudWatch

/-- A keyed `find?` hits exactly the sought element when its key
determines it within the list. -/
theorem find?_key_eq {α β : Type} [DecidableEq β] (key : α → β)
    (l : List α) (a : α) (ha : a ∈ l)
    (huniq : ∀ b ∈ l, key b = key a → b = a) :
    l.find? (fun x => key x == key a) = some a := by
  induction l with
  | nil => cases ha
  | cons x xs ih =>
    by_cases hx : key x = key a
    · have hxa : x = a := huniq x (List.mem_cons_self x xs) hx
      simp [List.find?, hx, hxa]
    · have hne : (key x == key a) = false := by
        simp [hx]
      have hmem : a ∈ xs := by
        rcases List.mem_cons.mp ha with h | h
        · exact absurd (congrArg key h.symm) hx
        · exact h
      simp only [List.find?, hne]
      exact ih hmem (fun b hb hk => huniq b (List.mem_cons_of_mem x hb) hk)

/-- Splitting a mapped sum along a Boolean filter. -/
theorem sum_map_filter_split {α : Type} (l : List α) (p : α → Bool)
    (f : α → Rat) :
    ((l.filter p).map f).sum + ((l.filter (fun x => !(p x))).map f).sum
      = (l.map f).sum := by
  induction l with
  | nil => simp
  | cons x xs ih =>
    by_cases hx : p x
    · simp [List.filter, hx, ← ih]; ring
    · simp [List.filter, hx, ← ih]; ring

/-- A successfully normalized region is one of the canonical provinces. -/
theorem normalizeRegion_mem {provinces : List String} {raw c : String}
    (h : normalizeRegion provinces raw = some c) : c ∈ provinces := by
  unfold normalizeRegion at h
  by_cases hraw : raw = ""
  · simp [hraw] at h
  · simp only [hraw, if_false] at h
    exact List.mem_of_find?_eq_some h

/-- Claim C1: for every filter combination, `aggregateByProvince` returns
exactly one bucket per canonical province name from the boundary file's
full province set — never fewer, whatever provinces appear in the filtered
data — and, with the source data's non-negative metric values, every
bucket's value is at least 0. -/
theorem aggregateByProvince_complete_nonneg
    (provinces : List String) (rows : List ProcRow) (st : FilterState)
    (filterYear : Option Int)
    (hnn : ∀ r ∈ rows, 0 ≤ metricValue st.metric r) :
    ((aggregateByProvince provinces rows st filterYear).map
        (fun b => b.province) = provinces)
    ∧ ∀ b ∈ aggregateByProvince provinces rows st filterYear, 0 ≤ b.value := by
  constructor
  · simp [aggregateByProvince, List.map_map, Function.comp_def]
  · intro b hb
    simp only [aggregateByProvince, List.mem_map] at hb
    obtain ⟨name, _, rfl⟩ := hb
    apply List.sum_nonneg
    intro x hx
    simp only [List.mem_map] at hx
    obtain ⟨r, hr, rfl⟩ := hx
    have hr1 : r ∈ filteredMapByYearRows rows st filterYear :=
      (List.mem_filter.mp hr).1
    have hr2 : r ∈ rows := (List.mem_filter.mp hr1).1
    exact hnn r hr2

/-- Witness for C1 on the spec's scenario data. -/
theorem aggregateByProvince_complete_nonneg_witness :
    ((aggregateByProvince sampleProvinces sampleRows lossAllState none).map
        (fun b => b.province) = sampleProvinces)
    ∧ ∀ b ∈ aggregateByProvince sampleProvinces sampleRows lossAllState none,
        0 ≤ b.value :=
  aggregateByProvince_complete_nonneg sampleProvinces sampleRows lossAllState
    none (by decide)

/-- Membership through the stable insert of the trend sort. -/
theorem mem_of_insertYearAsc (x y : TrendPoint) (l : List TrendPoint)
    (h : x ∈ insertYearAsc y l) : x = y ∨ x ∈ l := by
  induction l with
  | nil =>
    unfold insertYearAsc at h
    exact Or.inl (by simpa using h)
  | cons z zs ih =>
    unfold insertYearAsc at h
    by_cases hc : y.year ≤ z.year
    · rw [if_pos hc] at h
      rcases List.mem_cons.mp h with h | h
      · exact Or.inl h
      · exact Or.inr h
    · rw [if_neg hc] at h
      rcases List.mem_cons.mp h with h | h
      · refine Or.inr ?_
        rw [h]
        exact List.mem_cons_self z zs
      · rcases ih h with h | h
        · exact Or.inl h
        · exact Or.inr (List.mem_cons_of_mem z h)

/-- Membership through the trend sort. -/
theorem mem_of_sortYearAsc (x : TrendPoint) (l : List TrendPoint)
    (h : x ∈ sortYearAsc l) : x ∈ l := by
  induction l with
  | nil =>
    unfold sortYearAsc at h
    exact h
  | cons y ys ih =>
    unfold sortYearAsc at h
    rcases mem_of_insertYearAsc x y (sortYearAsc ys) h with h | h
    · rw [h]
      exact List.mem_cons_self y ys
    · exact List.mem_cons_of_mem y (ih h)

/-- Accumulator-generalized invariant of the trend rollup: every emitted
year is the year of an accumulator entry or of some folded record. -/
theorem trendRollup_years_aux (l : List MainRecord) (acc : List TrendPoint) :
    ∀ p ∈ l.foldl
      (fun acc d =>
        if acc.any (fun p => p.year == d.date.y) then
          acc.map (fun p =>
            if p.year == d.date.y then
              { p with cases := p.cases + 1, loss := p.loss + d.dollarLoss }
            else p)
        else acc ++ [{ year := d.date.y, cases := 1, loss := d.dollarLoss }])
      acc,
      (∃ q ∈ acc, q.year = p.year) ∨ ∃ d ∈ l, d.date.y = p.year := by
  induction l generalizing acc with
  | nil =>
    intro p hp
    exact Or.inl ⟨p, hp, rfl⟩
  | cons d ds ih =>
    intro p hp
    rw [List.foldl_cons] at hp
    rcases ih _ p hp with ⟨q, hq, hqy⟩ | ⟨e, he, hey⟩
    · by_cases hany : acc.any (fun p => p.year == d.date.y)
      · rw [if_pos hany] at hq
        obtain ⟨q0, hq0, rfl⟩ := List.mem_map.mp hq
        refine Or.inl ⟨q0, hq0, ?_⟩
        by_cases hq0y : (q0.year == d.date.y) = true
        · rw [if_pos hq0y] at hqy
          exact hqy
        · rw [if_neg hq0y] at hqy
          exact hqy
      · rw [if_neg hany] at hq
        rcases List.mem_append.mp hq with h | h
        · exact Or.inl ⟨q, h, hqy⟩
        · have hq2 : q = { year := d.date.y, cases := 1, loss := d.dollarLoss } := by
            simpa using h
          refine Or.inr ⟨d, List.mem_cons_self d ds, ?_⟩
          rw [← hqy, hq2]
    · exact Or.inr ⟨e, List.mem_cons_of_mem d he, hey⟩

/-- Every year in the trend rollup is the year of some folded record. -/
theorem trendRollup_years (demoFiltered : List MainRecord) :
    ∀ p ∈ trendRollup demoFiltered,
      ∃ d ∈ demoFiltered, d.date.y = p.year := by
  intro p hp
  rcases trendRollup_years_aux demoFiltered [] p hp with ⟨q, hq, _⟩ | h
  · cases hq
  · exact h

/-- Counterexample to C5 as stated: in the date-range variant (main.js
`updateTrendChart`), with records observed in both 2020 and 2021 but the
gender filter matching only the 2020 record, the yearly rollup has no
entry for the known year 2021 at all — the year is omitted rather than
reported with value 0, so the trend line loses that point. -/
theorem trendYearly_omits_year_counterexample :
    (2021 : Int) ∈ trendSampleData.map (fun d => d.date.y)
    ∧ (updateTrendYearly
        (demoFilteredRecords trendSampleData "Male" "all" "all")).map
        (fun p => p.year) = [2020]
    ∧ (2021 : Int) ∉ (updateTrendYearly
        (demoFilteredRecords trendSampleData "Male" "all" "all")).map
        (fun p => p.year) :=
  ⟨by decide, by decide, by decide⟩

/-- Amended C5: in the overview variant, `aggregateByYear` returns
exactly one entry per known year and a year with no matching records is
reported with value 0 rather than omitted, so that trend line has one
point per known year; but in the date-range variant, main.js
`updateTrendChart`'s yearly rollup contains an entry only for years with
at least one record matching the demographic filters, so a known year
whose records are all filtered out is omitted from that trend line. -/
theorem trendYears_per_variant
    (metaYears : List Int) (rows : List ProcRow) (st : FilterState)
    (demoFiltered : List MainRecord) :
    ((aggregateByYear metaYears rows st).map (fun e => e.year) = metaYears)
    ∧ (∀ e ∈ aggregateByYear metaYears rows st,
        filteredMapByYearRows rows st (some e.year) = [] → e.value = 0)
    ∧ (∀ p ∈ updateTrendYearly demoFiltered,
        ∃ d ∈ demoFiltered, d.date.y = p.year) := by
  refine ⟨?_, ?_, ?_⟩
  · simp [aggregateByYear, List.map_map, Function.comp_def]
  · intro e he hempty
    simp only [aggregateByYear, List.mem_map] at he
    obtain ⟨y, _, rfl⟩ := he
    simp only at hempty
    simp [hempty]
  · intro p hp
    exact trendRollup_years demoFiltered p (mem_of_sortYearAsc p _ hp)

/-- Witness for the amended C5: year 2019 has no records in the scenario
data yet the overview aggregation reports it with value 0, while the
date-range variant's trend data for the male-filtered sample only carries
observed years. -/
theorem trendYears_per_variant_witness :
    ((((aggregateByYear [2019, 2020, 2021] sampleRows lossAllState).map
        (fun e => e.year) = [2019, 2020, 2021])
      ∧ (∀ e ∈ aggregateByYear [2019, 2020, 2021] sampleRows lossAllState,
          filteredMapByYearRows sampleRows lossAllState (some e.year) = [] →
            e.value = 0)
      ∧ (∀ p ∈ updateTrendYearly
            (demoFilteredRecords trendSampleData "Male" "all" "all"),
          ∃ d ∈ demoFilteredRecords trendSampleData "Male" "all" "all",
            d.date.y = p.year)))
    ∧ { year := 2019, value := 0 }
        ∈ aggregateByYear [2019, 2020, 2021] sampleRows lossAllState :=
  ⟨trendYears_per_variant [2019, 2020, 2021] sampleRows lossAllState
      (demoFilteredRecords trendSampleData "Male" "all" "all"),
   by
    have h : aggregateByYear [2019, 2020, 2021] sampleRows lossAllState
        = [{ year := 2019, value := 0 }, { year := 2020, value := 100 },
           { year := 2021, value := 250 }] := by
      simp +decide [aggregateByYear, sampleRows, sampleRaws, sampleProvinces,
        preprocess, preprocessRow, normalizeRegion, jsToLower,
        filteredMapByYearRows, lossAllState, metricValue]
      norm_num
    rw [h]
    exact List.mem_cons_self _ _⟩

/-- The complement of the `major` filter of `groupRare` is the `minor`
filter. -/
theorem groupRare_filter_compl (arr : List GBucket) (cutoff : Rat) :
    arr.filter (fun d => !(decide (cutoff ≤ d.val)))
      = arr.filter (fun d => decide (d.val < cutoff)) := by
  apply List.filter_congr
  intro b _
  by_cases h : cutoff ≤ b.val
  · simp [h, not_lt.mpr h]
  · simp [h, lt_of_not_le h]

/-- Shape of `groupRare` in terms of its named locals. -/
theorem groupRare_eq (arr : List GBucket) :
    groupRare arr
      = if 0 < grMinorSum arr then
          grMajor arr ++ [{ key := "Others", val := grMinorSum arr }]
        else grMajor arr := rfl

/-- The major and minor sums of `groupRare` partition the total. -/
theorem grSplit (arr : List GBucket) :
    ((grMajor arr).map (fun d => d.val)).sum + grMinorSum arr = grTotal arr := by
  have h := sum_map_filter_split arr
    (fun d => decide (grCutoff arr ≤ d.val)) (fun d => d.val)
  rw [groupRare_filter_compl arr (grCutoff arr)] at h
  simpa [grMajor, grMinor, grMinorSum, grTotal] using h

/-- Elements of the minor list are positive when all bucket values are. -/
theorem grMinor_pos (arr : List GBucket) (hpos : ∀ b ∈ arr, 0 < b.val) :
    ∀ v ∈ (grMinor arr).map (fun d => d.val), 0 < v := by
  intro v hv
  obtain ⟨b, hb, rfl⟩ := List.mem_map.mp hv
  exact hpos b (List.mem_filter.mp hb).1

/-- Claim C3: `groupRare` preserves the total (including the synthetic
`"Others"` bucket), emits `"Others"` exactly when at least one group's
value fell strictly below the 2.5% cutoff, and, when every group is below
the cutoff, folds everything into the single `"Others"` bucket rather than
returning an empty list.  The hypotheses record what `countByField`
guarantees of real grouped buckets: every count is positive and no group
key is the synthetic `"Others"`. -/
theorem groupRare_total_and_others (arr : List GBucket)
    (hpos : ∀ b ∈ arr, 0 < b.val)
    (hkey : ∀ b ∈ arr, b.key ≠ "Others") :
    (((groupRare arr).map (fun d => d.val)).sum = grTotal arr)
    ∧ (("Others" ∈ (groupRare arr).map (fun d => d.key)) ↔
        ∃ b ∈ arr, b.val < grCutoff arr)
    ∧ ((∀ b ∈ arr, b.val < grCutoff arr) → arr ≠ [] →
        groupRare arr = [{ key := "Others", val := grTotal arr }]) := by
  refine ⟨?_, ⟨?_, ?_⟩, ?_⟩
  · rw [groupRare_eq]
    by_cases h : 0 < grMinorSum arr
    · simp only [h, if_true, List.map_append, List.sum_append]
      simpa using grSplit arr
    · have h0 : grMinorSum arr = 0 :=
        le_antisymm (not_lt.mp h)
          (List.sum_nonneg (fun v hv => le_of_lt (grMinor_pos arr hpos v hv)))
      have hs := grSplit arr
      rw [h0, add_zero] at hs
      simpa only [h, if_false] using hs
  · intro hmem
    rw [groupRare_eq] at hmem
    by_cases h : 0 < grMinorSum arr
    · have hne : grMinor arr ≠ [] := by
        intro hnil
        rw [grMinorSum, hnil] at h
        exact absurd h (by simp)
      obtain ⟨b, hb⟩ := List.exists_mem_of_ne_nil _ hne
      have hmf := List.mem_filter.mp hb
      exact ⟨b, hmf.1, by simpa using hmf.2⟩
    · simp only [h, if_false] at hmem
      obtain ⟨b, hb, hbk⟩ := List.mem_map.mp hmem
      exact absurd hbk (hkey b (List.mem_filter.mp hb).1)
  · intro hex
    obtain ⟨b, hb, hblt⟩ := hex
    have hbmem : b ∈ grMinor arr :=
      List.mem_filter.mpr ⟨hb, by simpa using hblt⟩
    have h : 0 < grMinorSum arr :=
      List.sum_pos _ (grMinor_pos arr hpos)
        (by
          intro hnil
          rw [List.map_eq_nil_iff] at hnil
          rw [hnil] at hbmem
          cases hbmem)
    rw [groupRare_eq]
    simp [h]
  · intro hall hne
    have hminor : grMinor arr = arr :=
      List.filter_eq_self.mpr (fun b hb => by simpa using hall b hb)
    have hmajor : grMajor arr = [] :=
      List.filter_eq_nil_iff.mpr
        (fun b hb => by simpa using not_le.mpr (hall b hb))
    have htot : grMinorSum arr = grTotal arr := by
      rw [grMinorSum, hminor, grTotal]
    have h : 0 < grMinorSum arr := by
      rw [htot, grTotal]
      exact List.sum_pos _
        (by
          intro v hv
          obtain ⟨c, hc, rfl⟩ := List.mem_map.mp hv
          exact hpos c hc)
        (fun hnil => hne (List.map_eq_nil_iff.mp hnil))
    rw [groupRare_eq, if_pos h, hmajor, htot, List.nil_append]

/-- Witness for C3 on a concrete bucket list: total 80, cutoff 2, the
`"B"` bucket (value 1) falls below the cutoff. -/
theorem groupRare_total_and_others_witness :
    (((groupRare ([{ key := "A", val := 79 }, { key := "B", val := 1 }] : List GBucket)).map (fun d => d.val)).sum = grTotal ([{ key := "A", val := 79 }, { key := "B", val := 1 }] : List GBucket))
    ∧ (("Others" ∈ (groupRare ([{ key := "A", val := 79 }, { key := "B", val := 1 }] : List GBucket)).map (fun d => d.key)) ↔
        ∃ b ∈ ([{ key := "A", val := 79 }, { key := "B", val := 1 }] : List GBucket), b.val < grCutoff ([{ key := "A", val := 79 }, { key := "B", val := 1 }] : List GBucket))
    ∧ ((∀ b ∈ ([{ key := "A", val := 79 }, { key := "B", val := 1 }] : List GBucket), b.val < grCutoff ([{ key := "A", val := 79 }, { key := "B", val := 1 }] : List GBucket)) → ([{ key := "A", val := 79 }, { key := "B", val := 1 }] : List GBucket) ≠ [] →
        groupRare ([{ key := "A", val := 79 }, { key := "B", val := 1 }] : List GBucket) = [{ key := "Others", val := grTotal ([{ key := "A", val := 79 }, { key := "B", val := 1 }] : List GBucket) }]) :=
  groupRare_total_and_others ([{ key := "A", val := 79 }, { key := "B", val := 1 }] : List GBucket) (by decide) (by decide)

/-- Claim C9: the rare-category cutoff is strict.  A bucket whose value is
exactly 2.5% of the total stays in the individual listing (it is never
folded), and only buckets strictly below the cutoff are dropped from the
output. -/
theorem groupRare_strict_cutoff (arr : List GBucket) (b : GBucket)
    (hb : b ∈ arr) :
    (b.val = grCutoff arr → b ∈ groupRare arr)
    ∧ (b.val < grCutoff arr → b.key ≠ "Others" → b ∉ groupRare arr) := by
  constructor
  · intro heq
    have hmem : b ∈ grMajor arr :=
      List.mem_filter.mpr ⟨hb, by simpa using le_of_eq heq.symm⟩
    rw [groupRare_eq]
    by_cases h : 0 < grMinorSum arr
    · rw [if_pos h]
      exact List.mem_append_left _ hmem
    · rw [if_neg h]
      exact hmem
  · intro hlt hkey hmem
    rw [groupRare_eq] at hmem
    by_cases h : 0 < grMinorSum arr
    · rw [if_pos h] at hmem
      rcases List.mem_append.mp hmem with hmaj | hoth
      · have hge : grCutoff arr ≤ b.val := by
          simpa using (List.mem_filter.mp hmaj).2
        exact absurd hge (not_le.mpr hlt)
      · have hbeq : b = { key := "Others", val := grMinorSum arr } := by
          simpa using hoth
        exact hkey (by rw [hbeq])
    · rw [if_neg h] at hmem
      have hge : grCutoff arr ≤ b.val := by
        simpa using (List.mem_filter.mp hmem).2
      exact absurd hge (not_le.mpr hlt)

/-- Witness for C9: with total 40 the cutoff is exactly 1, so the bucket
`{"B", 1}` sits exactly at the cutoff and is kept; with total 80 the same
bucket is strictly below the cutoff 2 and is folded away. -/
theorem groupRare_strict_cutoff_witness :
    ({ key := "B", val := 1 }
        ∈ groupRare [{ key := "A", val := 39 }, { key := "B", val := 1 }])
    ∧ ({ key := "B", val := 1 }
        ∉ groupRare [{ key := "A", val := 79 }, { key := "B", val := 1 }]) :=
  ⟨(groupRare_strict_cutoff
      [{ key := "A", val := 39 }, { key := "B", val := 1 }]
      { key := "B", val := 1 } (by decide)).1
    (by
      show (1 : Rat) = grTotal [{ key := "A", val := 39 }, { key := "B", val := 1 }] * (1 / 40 : Rat)
      simp [grTotal]
      norm_num),
   (groupRare_strict_cutoff
      [{ key := "A", val := 79 }, { key := "B", val := 1 }]
      { key := "B", val := 1 } (by decide)).2
    (by
      show (1 : Rat) < grTotal [{ key := "A", val := 79 }, { key := "B", val := 1 }] * (1 / 40 : Rat)
      simp [grTotal]
      norm_num)
    (by decide)⟩

/-- Claim C7: top-N overflow folding in `updatePieChart` keeps exactly the
top 20 groups of the count-sorted list; when more than 20 groups exist the
remainder is summed into a single `"Others"` bucket appended last,
regardless of its share; the output total equals the input total; and with
at most 20 groups no `"Others"` bucket is added. -/
theorem topNFold_spec (aggregated : List CountBucket)
    (hsorted : List.Pairwise (fun a b => b.value ≤ a.value) aggregated) :
    (((topNFold aggregated).map (fun d => d.value)).sum
        = (aggregated.map (fun d => d.value)).sum)
    ∧ (aggregated.length ≤ 20 → topNFold aggregated = aggregated)
    ∧ (20 < aggregated.length →
        (topNFold aggregated
          = aggregated.take 20
            ++ [{ key := "Others",
                  value := ((aggregated.drop 20).map (fun d => d.value)).sum }])
          ∧ ∀ a ∈ aggregated.take 20, ∀ b ∈ aggregated.drop 20,
              b.value ≤ a.value) := by
  have hsplit :
      ((aggregated.take 20).map (fun d => d.value)).sum
        + ((aggregated.drop 20).map (fun d => d.value)).sum
        = (aggregated.map (fun d => d.value)).sum := by
    conv_rhs => rw [← List.take_append_drop 20 aggregated]
    simp [List.map_append, List.sum_append]
  refine ⟨?_, ?_, ?_⟩
  · by_cases h : 20 < aggregated.length
    · simp only [topNFold, h, if_true, List.map_append, List.sum_append]
      simp [hsplit]
    · have hle : aggregated.length ≤ 20 := not_lt.mp h
      simp only [topNFold, h, if_false]
      rw [List.take_of_length_le hle]
  · intro hle
    have h : ¬ 20 < aggregated.length := not_lt.mpr hle
    simp only [topNFold, h, if_false]
    exact List.take_of_length_le hle
  · intro h
    constructor
    · simp only [topNFold, h, if_true]
    · have hp := hsorted
      rw [← List.take_append_drop 20 aggregated] at hp
      exact fun a ha b hb => (List.pairwise_append.mp hp).2.2 a ha b hb

/-- Witness for C7 on a two-element sorted list (no folding happens). -/
theorem topNFold_spec_witness :
    (((topNFold [{ key := "A", value := 5 }, { key := "B", value := 3 }]).map
        (fun d => d.value)).sum
      = (([{ key := "A", value := 5 }, { key := "B", value := 3 }] : List CountBucket).map
          (fun d => d.value)).sum)
    ∧ (([{ key := "A", value := 5 }, { key := "B", value := 3 }] : List CountBucket).length ≤ 20 →
        topNFold [{ key := "A", value := 5 }, { key := "B", value := 3 }]
          = [{ key := "A", value := 5 }, { key := "B", value := 3 }])
    ∧ (20 < ([{ key := "A", value := 5 }, { key := "B", value := 3 }] : List CountBucket).length →
        (topNFold [{ key := "A", value := 5 }, { key := "B", value := 3 }]
          = ([{ key := "A", value := 5 }, { key := "B", value := 3 }] : List CountBucket).take 20
            ++ [{ key := "Others",
                  value := ((([{ key := "A", value := 5 }, { key := "B", value := 3 }] : List CountBucket).drop 20).map
                    (fun d => d.value)).sum }])
          ∧ ∀ a ∈ ([{ key := "A", value := 5 }, { key := "B", value := 3 }] : List CountBucket).take 20,
              ∀ b ∈ ([{ key := "A", value := 5 }, { key := "B", value := 3 }] : List CountBucket).drop 20,
                b.value ≤ a.value) :=
  topNFold_spec [{ key := "A", value := 5 }, { key := "B", value := 3 }]
    (by decide)

/-- Lookup of a canonical name by its lower-casing, under case-insensitive
injectivity of the province set. -/
theorem findLower_eq (provinces : List String)
    (hinj : ∀ a ∈ provinces, ∀ b ∈ provinces, jsToLower a = jsToLower b → a = b)
    (c : String) (hc : c ∈ provinces) (candidate : String)
    (hlow : jsToLower candidate = jsToLower c) :
    provinces.find? (fun full => jsToLower full == jsToLower candidate)
      = some c := by
  rw [hlow]
  exact find?_key_eq jsToLower provinces c hc
    (fun b hb hkey => hinj b hb c hc hkey)

/-- Claim C4: region normalization is a round-trip on canonical names —
every canonical province name in the boundary set normalizes to itself —
and the documented alias spellings `"Newfoundland And Labrador"` and
`"North West Territories"` / `"Northwest Territories"` normalize to the
same canonical name as the standard spelling.  The hypotheses state what
holds of the real boundary file: names are non-empty, no two differ only
by case, and the set spells the territory `"Northwest Territories"`. -/
theorem normalizeRegion_roundtrip (provinces : List String)
    (hne : "" ∉ provinces)
    (hinj : ∀ a ∈ provinces, ∀ b ∈ provinces, jsToLower a = jsToLower b → a = b)
    (hnwt : "North West Territories" ∉ provinces) :
    (∀ c ∈ provinces, normalizeRegion provinces c = some c)
    ∧ ("Newfoundland and Labrador" ∈ provinces →
        normalizeRegion provinces "Newfoundland And Labrador"
          = some "Newfoundland and Labrador")
    ∧ ("Northwest Territories" ∈ provinces →
        normalizeRegion provinces "North West Territories"
            = some "Northwest Territories"
          ∧ normalizeRegion provinces "Northwest Territories"
            = some "Northwest Territories") := by
  refine ⟨?_, ?_, ?_⟩
  · intro c hc
    by_cases h1 : c = "Newfoundland And Labrador"
    · subst h1
      have hred : normalizeRegion provinces "Newfoundland And Labrador"
          = provinces.find?
              (fun full => jsToLower full == jsToLower "Newfoundland and Labrador") := rfl
      rw [hred]
      exact findLower_eq provinces hinj _ hc "Newfoundland and Labrador" (by decide)
    · by_cases h2 : c = "North West Territories"
      · exact absurd (h2 ▸ hc) hnwt
      · by_cases h3 : c = "Northwest Territories"
        · subst h3
          have hred : normalizeRegion provinces "Northwest Territories"
              = provinces.find?
                  (fun full => jsToLower full == jsToLower "Northwest Territories") := rfl
          rw [hred]
          exact findLower_eq provinces hinj _ hc "Northwest Territories" rfl
        · have h0 : ¬ c = "" := fun h => hne (h ▸ hc)
          have h23 : ¬ (c = "North West Territories" ∨ c = "Northwest Territories") := by
            intro h
            rcases h with h | h
            · exact h2 h
            · exact h3 h
          have hred : normalizeRegion provinces c
              = provinces.find? (fun full => jsToLower full == jsToLower c) := by
            simp only [normalizeRegion, if_neg h0, if_neg h1, if_neg h23]
          rw [hred]
          exact findLower_eq provinces hinj c hc c rfl
  · intro hmem
    have hred : normalizeRegion provinces "Newfoundland And Labrador"
        = provinces.find?
            (fun full => jsToLower full == jsToLower "Newfoundland and Labrador") := rfl
    rw [hred]
    exact findLower_eq provinces hinj _ hmem "Newfoundland and Labrador" rfl
  · intro hmem
    constructor
    · have hred : normalizeRegion provinces "North West Territories"
          = provinces.find?
              (fun full => jsToLower full == jsToLower "Northwest Territories") := rfl
      rw [hred]
      exact findLower_eq provinces hinj _ hmem "Northwest Territories" rfl
    · have hred : normalizeRegion provinces "Northwest Territories"
          = provinces.find?
              (fun full => jsToLower full == jsToLower "Northwest Territories") := rfl
      rw [hred]
      exact findLower_eq provinces hinj _ hmem "Northwest Territories" rfl

/-- Witness for C4 on the concrete sample of canonical boundary names. -/
theorem normalizeRegion_roundtrip_witness :
    ((∀ c ∈ sampleProvinces, normalizeRegion sampleProvinces c = some c)
    ∧ ("Newfoundland and Labrador" ∈ sampleProvinces →
        normalizeRegion sampleProvinces "Newfoundland And Labrador"
          = some "Newfoundland and Labrador")
    ∧ ("Northwest Territories" ∈ sampleProvinces →
        normalizeRegion sampleProvinces "North West Territories"
            = some "Northwest Territories"
          ∧ normalizeRegion sampleProvinces "Northwest Territories"
            = some "Northwest Territories"))
    ∧ "Newfoundland and Labrador" ∈ sampleProvinces
    ∧ "Northwest Territories" ∈ sampleProvinces :=
  ⟨normalizeRegion_roundtrip sampleProvinces (by decide) (by decide) (by decide),
   by decide, by decide⟩

/-- Summing a function over a duplicate-free list where exactly one
element carries an extra contribution. -/
theorem sum_map_ite_single (provinces : List String) (c : String)
    (hc : c ∈ provinces) (hnd : provinces.Nodup)
    (g : String → Rat) (a : Rat) :
    (provinces.map (fun p => if c = p then a + g p else g p)).sum
      = a + (provinces.map g).sum := by
  induction provinces with
  | nil => cases hc
  | cons x xs ih =>
    rcases List.mem_cons.mp hc with h | h
    · subst h
      have hnotin : c ∉ xs := (List.nodup_cons.mp hnd).1
      have hmap : xs.map (fun p => if c = p then a + g p else g p) = xs.map g := by
        apply List.map_congr_left
        intro p hp
        have hcp : ¬ c = p := fun hcp => hnotin (hcp ▸ hp)
        simp [hcp]
      simp only [List.map_cons, List.sum_cons, hmap, if_true]
      ring
    · have hxnotin : x ∉ xs := (List.nodup_cons.mp hnd).1
      have hcx : ¬ c = x := fun hcx => hxnotin (hcx ▸ h)
      simp only [List.map_cons, List.sum_cons, if_neg hcx]
      rw [ih h (List.nodup_cons.mp hnd).2]
      ring

/-- Partition of a mapped sum along a duplicate-free key list: when every
row's normalized region is one of the provinces, summing the per-province
group sums recovers the total. -/
theorem sum_provinces_partition (provinces : List String)
    (hnd : provinces.Nodup) (l : List ProcRow) (f : ProcRow → Rat)
    (hcl : ∀ r ∈ l, ∃ c, r.regionNormalized = some c ∧ c ∈ provinces) :
    (provinces.map (fun p =>
        ((l.filter (fun d => d.regionNormalized == some p)).map f).sum)).sum
      = (l.map f).sum := by
  induction l with
  | nil => simp
  | cons r rs ih =>
    obtain ⟨c, hc, hcmem⟩ := hcl r (List.mem_cons_self r rs)
    have hstep : provinces.map (fun p =>
          (((r :: rs).filter (fun d => d.regionNormalized == some p)).map f).sum)
        = provinces.map (fun p =>
            if c = p then
              f r + ((rs.filter (fun d => d.regionNormalized == some p)).map f).sum
            else ((rs.filter (fun d => d.regionNormalized == some p)).map f).sum) := by
      apply List.map_congr_left
      intro p _
      by_cases hp : c = p
      · have hcond : (r.regionNormalized == some p) = true := by
          rw [hc, ← hp]
          simp
        rw [List.filter_cons, if_pos hcond, if_pos hp]
        simp
      · have hcond : (r.regionNormalized == some p) = false := by
          rw [hc]
          simpa using fun hco => hp hco
        rw [List.filter_cons, if_neg (by simp [hcond]), if_neg hp]
    rw [hstep, sum_map_ite_single provinces c hcmem hnd _ (f r),
      ih (fun x hx => hcl x (List.mem_cons_of_mem r hx))]
    simp

/-- Claim C2: with no categorical filters active, the by-year
aggregation's value at a known year equals the sum over all provinces of
the by-province aggregation computed with that year filter, over the same
record set and metric. -/
theorem aggregateByYear_matches_provinceSum
    (provinces : List String) (metaYears : List Int) (rows : List ProcRow)
    (st : FilterState) (hnd : provinces.Nodup)
    (hcl : ∀ r ∈ rows, ∀ c, r.regionNormalized = some c → c ∈ provinces)
    (_hg : st.gender = "ALL") (_ha : st.age = "ALL") :
    ∀ e ∈ aggregateByYear metaYears rows st,
      e.value = ((aggregateByProvince provinces rows st (some e.year)).map
        (fun b => b.value)).sum := by
  intro e he
  simp only [aggregateByYear, List.mem_map] at he
  obtain ⟨y, _, rfl⟩ := he
  have hmap : (aggregateByProvince provinces rows st (some y)).map
        (fun b => b.value)
      = provinces.map (fun p =>
          (((filteredMapByYearRows rows st (some y)).filter
            (fun d => d.regionNormalized == some p)).map
              (metricValue st.metric)).sum) := by
    simp [aggregateByProvince, List.map_map, Function.comp_def]
  have hclF : ∀ r ∈ filteredMapByYearRows rows st (some y),
      ∃ c, r.regionNormalized = some c ∧ c ∈ provinces := by
    intro r hr
    have hrows : r ∈ rows := (List.mem_filter.mp hr).1
    have hcond := (List.mem_filter.mp hr).2
    have hsome : r.regionNormalized.isSome := by
      simp only [Bool.and_eq_true] at hcond
      exact hcond.1.1.1
    obtain ⟨c, hc⟩ := Option.isSome_iff_exists.mp hsome
    exact ⟨c, hc, hcl r hrows c hc⟩
  rw [hmap,
    sum_provinces_partition provinces hnd (filteredMapByYearRows rows st (some y))
      (metricValue st.metric) hclF]

/-- Rows produced by `preprocessData` only normalize into the canonical
province set. -/
theorem preprocess_closure (provinces : List String) (raws : List RawRow) :
    ∀ r ∈ preprocess provinces raws, ∀ c,
      r.regionNormalized = some c → c ∈ provinces := by
  intro r hr c hc
  simp only [preprocess, List.mem_map] at hr
  obtain ⟨raw, _, rfl⟩ := hr
  exact normalizeRegion_mem (by simpa [preprocessRow] using hc)

/-- Witness for C2 on the spec scenario data at the 2021 entry of the
by-year aggregation. -/
theorem aggregateByYear_matches_provinceSum_witness :
    ({ year := 2021, value := 250 } : YearBucket).value
      = ((aggregateByProvince sampleProvinces sampleRows lossAllState
          (some ({ year := 2021, value := 250 } : YearBucket).year)).map
        (fun b => b.value)).sum :=
  aggregateByYear_matches_provinceSum sampleProvinces [2020, 2021] sampleRows
    lossAllState (by decide)
    (preprocess_closure sampleProvinces sampleRaws) rfl rfl
    { year := 2021, value := 250 }
    (by
      have h : aggregateByYear [2020, 2021] sampleRows lossAllState
          = [{ year := 2020, value := 100 }, { year := 2021, value := 250 }] := by
        simp +decide [aggregateByYear, sampleRows, sampleRaws, sampleProvinces,
          preprocess, preprocessRow, normalizeRegion, jsToLower,
          filteredMapByYearRows, lossAllState, metricValue]
        norm_num
      rw [h]
      exact List.mem_cons_of_mem _ (List.mem_cons_self _ _))

/-- Claim C10: an invalid date-window input is recovered silently.  If
either date input is empty, either fails to parse, or the parsed start is
after the end, the effective window is the default trailing-12-month
window and the record filtering proceeds exactly as if the inputs had
never been changed. -/
theorem dateWindow_invalid_recovery
    (parse : String → Option SDate) (data : List MainRecord)
    (gender age region startVal endVal : String)
    (hinv : startVal = "" ∨ endVal = "" ∨ parse startVal = none
      ∨ parse endVal = none
      ∨ ∃ s e, parse startVal = some s ∧ parse endVal = some e
          ∧ SDate.le s e = false) :
    (∀ defStart defEnd,
        effectiveWindow parse defStart defEnd startVal endVal
          = (defStart, defEnd))
    ∧ updateControlsFiltered parse data gender age region startVal endVal
      = updateControlsFiltered parse data gender age region "" "" := by
  have hwin : ∀ defStart defEnd,
      effectiveWindow parse defStart defEnd startVal endVal
        = (defStart, defEnd) := by
    intro ds de
    by_cases hc : startVal ≠ "" ∧ endVal ≠ ""
    · rcases hinv with h | h | h | h | ⟨sd, ed, hs, he, hle⟩
      · exact absurd h hc.1
      · exact absurd h hc.2
      · cases hpe : parse endVal <;> simp [effectiveWindow, hc, h, hpe]
      · cases hps : parse startVal <;> simp [effectiveWindow, hc, h, hps]
      · simp [effectiveWindow, hc, hs, he, hle]
    · simp [effectiveWindow, hc]
  refine ⟨hwin, ?_⟩
  unfold updateControlsFiltered
  cases hmax : maxDateOf (data.map (fun d => d.date)) with
  | none => rfl
  | some maxD =>
    have hdef : effectiveWindow parse (oneYearBefore maxD) maxD "" ""
        = (oneYearBefore maxD, maxD) := by
      simp [effectiveWindow]
    dsimp only
    rw [hwin (oneYearBefore maxD) maxD, hdef]

/-- Witness for C10: an unparsable start input falls back to the default
window over a one-record data set. -/
theorem dateWindow_invalid_recovery_witness :
    (∀ defStart defEnd,
        effectiveWindow
          (fun s => if s = "2021-05-01" then some { y := 2021, m := 5, d := 1 } else none)
          defStart defEnd "bogus" "2021-05-01"
          = (defStart, defEnd))
    ∧ updateControlsFiltered
        (fun s => if s = "2021-05-01" then some { y := 2021, m := 5, d := 1 } else none)
        [{ date := { y := 2021, m := 3, d := 9 }, gender := "Male",
           ageRange := "30-39", region := "Ontario", dollarLoss := 100 }]
        "all" "all" "all" "bogus" "2021-05-01"
      = updateControlsFiltered
          (fun s => if s = "2021-05-01" then some { y := 2021, m := 5, d := 1 } else none)
          [{ date := { y := 2021, m := 3, d := 9 }, gender := "Male",
             ageRange := "30-39", region := "Ontario", dollarLoss := 100 }]
          "all" "all" "all" "" "" :=
  dateWindow_invalid_recovery
    (fun s => if s = "2021-05-01" then some { y := 2021, m := 5, d := 1 } else none)
    [{ date := { y := 2021, m := 3, d := 9 }, gender := "Male",
       ageRange := "30-39", region := "Ontario", dollarLoss := 100 }]
    "all" "all" "all" "bogus" "2021-05-01"
    (Or.inr (Or.inr (Or.inl (by decide))))

/-- The maximum-fold of `d3maxQ` over a seeded accumulator. -/
theorem d3maxQ_cons (x : Rat) (xs : List Rat) :
    d3maxQ (x :: xs) = some (xs.foldl max x) := by
  have h : ∀ (l : List Rat) (a : Rat),
      l.foldl
        (fun acc v =>
          match acc with
          | none => some v
          | some m => some (max m v))
        (some a) = some (l.foldl max a) := by
    intro l
    induction l with
    | nil => intro a; rfl
    | cons y ys ih => intro a; exact ih (max a y)
  exact h xs x

/-- The seed of a max-fold bounds below its result. -/
theorem foldl_max_ge_init (xs : List Rat) (a : Rat) : a ≤ xs.foldl max a := by
  induction xs generalizing a with
  | nil => exact le_refl a
  | cons x xs ih => exact le_trans (le_max_left a x) (ih (max a x))

/-- Every member of a list bounds below its max-fold. -/
theorem foldl_max_ge_mem (xs : List Rat) (a x : Rat) (hx : x ∈ xs) :
    x ≤ xs.foldl max a := by
  induction xs generalizing a with
  | nil => cases hx
  | cons y ys ih =>
    rcases List.mem_cons.mp hx with h | h
    · subst h
      exact le_trans (le_max_right a x) (foldl_max_ge_init ys (max a x))
    · exact ih (max a y) h

/-- Every element of a list is at most `d3.max(list) || 0`. -/
theorem d3maxQ_ge (l : List Rat) (x : Rat) (hx : x ∈ l) :
    x ≤ (d3maxQ l).getD 0 := by
  cases l with
  | nil => cases hx
  | cons y ys =>
    rw [d3maxQ_cons]
    rcases List.mem_cons.mp hx with h | h
    · subst h
      exact foldl_max_ge_init ys x
    · exact foldl_max_ge_mem ys y x h

/-- A province's looked-up map value is either 0 (no bucket found) or
bounded by the scale's max. -/
theorem provinceValueOf_le (provinces : List String) (rows : List ProcRow)
    (st : FilterState) (pname : String) :
    provinceValueOf provinces rows st pname = 0
    ∨ provinceValueOf provinces rows st pname
        ≤ mapMaxVal provinces rows st := by
  unfold provinceValueOf mapMaxVal
  cases hf : (aggregateByProvince provinces rows st st.year).find?
      (fun d => d.province == pname) with
  | none => left; rfl
  | some b =>
    right
    have hmem : b ∈ aggregateByProvince provinces rows st st.year :=
      List.mem_of_find?_eq_some hf
    have hvmem : b.value
        ∈ (aggregateByProvince provinces rows st st.year).map
          (fun d => d.value) :=
      List.mem_map.mpr ⟨b, hmem, rfl⟩
    simpa using d3maxQ_ge _ b.value hvmem

/-- Counterexample to C6 as stated: in comparison.js `drawMap` a province
whose aggregated value is 0 is filled with the sequential scale applied at
0, not with a distinct neutral CSS fill. -/
theorem choropleth_zero_neutral_counterexample :
    comparisonMapFill [("Ontario", 5), ("Quebec", 0)] 5 "Quebec"
      = FillSpec.seqScale 5 0
    ∧ FillSpec.seqScale 5 0 ≠ FillSpec.css "#e5e7eb" := by
  constructor
  · rfl
  · intro h
    cases h

/-- Amended C6: the overview choropleth (`updateMap`) fills zero-value
provinces with the neutral `"#e5e7eb"` and positive-value provinces with
the sequential scale over `[0, max]`; the comparison view's `drawMap`
fills every province, including zero-valued ones, with the scale color at
its looked-up value. -/
theorem choropleth_zero_fill_amended (provinces : List String)
    (rows : List ProcRow) (st : FilterState) (features : List Feature)
    (valueByProv : List (String × Rat)) (maxVal : Rat) (name : String) :
    (∀ e ∈ updateMapFills provinces rows st features,
        (provinceValueOf provinces rows st e.1 = 0 →
          e.2 = FillSpec.css "#e5e7eb")
        ∧ (0 < provinceValueOf provinces rows st e.1 →
            e.2 = FillSpec.seqScale (mapMaxVal provinces rows st)
              (provinceValueOf provinces rows st e.1)))
    ∧ comparisonMapFill valueByProv maxVal name
        = FillSpec.seqScale maxVal (lookupValD valueByProv name) := by
  constructor
  · intro e he
    simp only [updateMapFills, List.mem_map] at he
    obtain ⟨f, _, rfl⟩ := he
    constructor
    · intro h0
      simp only [overviewFillFor, h0]
      rw [if_neg (lt_irrefl 0)]
    · intro hpos
      have hle : provinceValueOf provinces rows st f.prename
          ≤ mapMaxVal provinces rows st := by
        rcases provinceValueOf_le provinces rows st f.prename with h | h
        · rw [h] at hpos
          exact absurd hpos (lt_irrefl 0)
        · exact h
      have hmx : ¬ mapMaxVal provinces rows st = 0 := by
        intro hz
        rw [hz] at hle
        exact absurd (lt_of_lt_of_le hpos hle) (lt_irrefl 0)
      simp only [overviewFillFor, if_pos hpos, if_neg hmx]
  · rfl

/-- Witness for the amended C6: in the concrete sample, Manitoba has value
0 and receives the neutral fill in `updateMap`, while the comparison map
at Quebec (value 0) receives the scale fill. -/
theorem choropleth_zero_fill_amended_witness :
    provinceValueOf sampleProvinces sampleRows mapSampleState "Manitoba" = 0
    ∧ overviewFillFor (mapMaxVal sampleProvinces sampleRows mapSampleState)
        (provinceValueOf sampleProvinces sampleRows mapSampleState "Manitoba")
      = FillSpec.css "#e5e7eb"
    ∧ comparisonMapFill [("Ontario", 5), ("Quebec", 0)] 5 "Quebec"
      = FillSpec.seqScale 5 (lookupValD [("Ontario", 5), ("Quebec", 0)] "Quebec") := by
  have h0 : provinceValueOf sampleProvinces sampleRows mapSampleState "Manitoba"
      = 0 := by decide
  have hmem : ("Manitoba",
      overviewFillFor (mapMaxVal sampleProvinces sampleRows mapSampleState)
        (provinceValueOf sampleProvinces sampleRows mapSampleState "Manitoba"))
      ∈ updateMapFills sampleProvinces sampleRows mapSampleState sampleFeatures :=
    List.mem_map.mpr
      ⟨{ pruid := "46", prename := "Manitoba", preabbr := "Man." },
       by decide, rfl⟩
  exact ⟨h0,
    ((choropleth_zero_fill_amended sampleProvinces sampleRows mapSampleState
        sampleFeatures [("Ontario", 5), ("Quebec", 0)] 5 "Quebec").1 _ hmem).1 h0,
    (choropleth_zero_fill_amended sampleProvinces sampleRows mapSampleState
        sampleFeatures [("Ontario", 5), ("Quebec", 0)] 5 "Quebec").2⟩

/-- A `filterMap` that fixes every element of its list is the identity. -/
theorem filterMap_id_of {α : Type} (f : α → Option α) (l : List α)
    (h : ∀ e ∈ l, f e = some e) : l.filterMap f = l := by
  induction l with
  | nil => rfl
  | cons x xs ih =>
    rw [List.filterMap_cons, h x (List.mem_cons_self x xs),
      ih (fun e he => h e (List.mem_cons_of_mem x he))]

/-- Every element the map join leaves in the DOM carries a datum from the
feature list and the fill recomputed for it. -/
theorem updateMapDom_elem (provinces : List String) (rows : List ProcRow)
    (st : FilterState) (features : List Feature) (dom : List MapPathElem) :
    ∀ e ∈ updateMapDom provinces rows st features dom,
      e.datum ∈ features
      ∧ e.fill = overviewFillFor (mapMaxVal provinces rows st)
          (provinceValueOf provinces rows st e.datum.prename) := by
  intro e he
  rcases List.mem_append.mp he with h | h
  · obtain ⟨e0, _, hmap⟩ := List.mem_filterMap.mp h
    obtain ⟨f, hf, rfl⟩ := Option.map_eq_some'.mp hmap
    exact ⟨List.mem_of_find?_eq_some hf, rfl⟩
  · obtain ⟨f, hf, rfl⟩ := List.mem_map.mp h
    exact ⟨(List.mem_filter.mp hf).1, rfl⟩

/-- Every feature key is present among the joined DOM elements. -/
theorem updateMapDom_covers (provinces : List String) (rows : List ProcRow)
    (st : FilterState) (features : List Feature) (dom : List MapPathElem) :
    ∀ f ∈ features, ∃ e ∈ updateMapDom provinces rows st features dom,
      e.datum.pruid = f.pruid := by
  intro f hf
  by_cases hd : dom.any (fun e => e.datum.pruid == f.pruid)
  · obtain ⟨e0, he0, hkey⟩ := List.any_eq_true.mp hd
    have hkey2 : e0.datum.pruid = f.pruid := by simpa using hkey
    have hfsat : (fun x => x.pruid == e0.datum.pruid) f = true := by
      simp [hkey2]
    have hsome : (features.find? (fun x => x.pruid == e0.datum.pruid)).isSome := by
      rw [List.find?_isSome]
      exact ⟨f, hf, hfsat⟩
    obtain ⟨fd, hfd⟩ := Option.isSome_iff_exists.mp hsome
    refine ⟨{ e0 with datum := fd, fill := overviewFillFor (mapMaxVal provinces rows st) (provinceValueOf provinces rows st fd.prename) }, ?_, ?_⟩
    · exact List.mem_append.mpr (Or.inl
        (List.mem_filterMap.mpr ⟨e0, he0, by rw [hfd]; rfl⟩))
    · have : fd.pruid = e0.datum.pruid := by
        simpa using List.find?_some hfd
      rw [this, hkey2]
  · have hfalse : (dom.any fun e => e.datum.pruid == f.pruid) = false :=
      Bool.eq_false_iff.mpr hd
    refine ⟨{ datum := f, shape := f,
              fill := overviewFillFor (mapMaxVal provinces rows st)
                (provinceValueOf provinces rows st f.prename) }, ?_, rfl⟩
    refine List.mem_append.mpr (Or.inr (List.mem_map.mpr ⟨f, ?_, rfl⟩))
    exact List.mem_filter.mpr ⟨hf, by simp [hfalse]⟩

/-- The keyed map join of `updateMap` is idempotent when the feature keys
are duplicate-free. -/
theorem updateMapDom_idem (provinces : List String) (rows : List ProcRow)
    (st : FilterState) (features : List Feature) (dom : List MapPathElem)
    (hnd : (features.map (fun f => f.pruid)).Nodup) :
    updateMapDom provinces rows st features
        (updateMapDom provinces rows st features dom)
      = updateMapDom provinces rows st features dom := by
  have helem := updateMapDom_elem provinces rows st features dom
  have hcov := updateMapDom_covers provinces rows st features dom
  have hA : (updateMapDom provinces rows st features dom).filterMap
      (fun e => (features.find? (fun f => f.pruid == e.datum.pruid)).map
        (fun f => { e with datum := f
                           fill := overviewFillFor (mapMaxVal provinces rows st)
                             (provinceValueOf provinces rows st f.prename) }))
      = updateMapDom provinces rows st features dom := by
    apply filterMap_id_of
    intro e he
    obtain ⟨hmem, hfill⟩ := helem e he
    have hfind : features.find? (fun f => f.pruid == e.datum.pruid)
        = some e.datum :=
      find?_key_eq (fun f => f.pruid) features e.datum hmem
        (fun b hb hk => List.inj_on_of_nodup_map hnd hb hmem hk)
    rw [hfind, Option.map_some']
    cases e with
    | mk datum shape fill =>
      simp only at hfill
      rw [hfill]
  have hB : features.filter
      (fun f => !((updateMapDom provinces rows st features dom).any
        (fun e => e.datum.pruid == f.pruid))) = [] := by
    apply List.filter_eq_nil_iff.mpr
    intro f hf
    obtain ⟨e, he, hkey⟩ := hcov f hf
    have hany : (updateMapDom provinces rows st features dom).any
        (fun e => e.datum.pruid == f.pruid) = true :=
      List.any_eq_true.mpr ⟨e, he, by simp [hkey]⟩
    simp [hany]
  calc updateMapDom provinces rows st features
          (updateMapDom provinces rows st features dom)
      = (updateMapDom provinces rows st features dom).filterMap
          (fun e => (features.find? (fun f => f.pruid == e.datum.pruid)).map
            (fun f => { e with datum := f
                               fill := overviewFillFor (mapMaxVal provinces rows st)
                                 (provinceValueOf provinces rows st f.prename) }))
        ++ ((features.filter
            (fun f => !((updateMapDom provinces rows st features dom).any
              (fun e => e.datum.pruid == f.pruid)))).map
          (fun f => { datum := f, shape := f
                      fill := overviewFillFor (mapMaxVal provinces rows st)
                        (provinceValueOf provinces rows st f.prename) })) := rfl
    _ = updateMapDom provinces rows st features dom := by
        rw [hA, hB, List.map_nil, List.append_nil]

/-- Claim C8: `updateAll()` is idempotent — running the full update
pipeline twice with unchanged filter state and data leaves the rendered
state identical to running it once: the keyed map join neither duplicates
nor accumulates path elements, and the cleared-and-rebuilt charts are pure
functions of the aggregations. -/
theorem updateAll_idempotent (provinces : List String) (metaYears : List Int)
    (rows : List ProcRow) (st : FilterState) (features : List Feature)
    (dom : OverviewDom)
    (hnd : (features.map (fun f => f.pruid)).Nodup) :
    updateAllDom provinces metaYears rows st features
        (updateAllDom provinces metaYears rows st features dom)
      = updateAllDom provinces metaYears rows st features dom := by
  unfold updateAllDom
  simp only [OverviewDom.mk.injEq]
  exact ⟨updateMapDom_idem provinces rows st features dom.mapPaths hnd,
    by trivial, by trivial, by trivial⟩

/-- Witness for C8 on the concrete sample dashboard starting from an empty
DOM. -/
theorem updateAll_idempotent_witness :
    updateAllDom sampleProvinces [2020, 2021] sampleRows mapSampleState
        sampleFeatures
        (updateAllDom sampleProvinces [2020, 2021] sampleRows mapSampleState
          sampleFeatures
          { mapPaths := [], trend := [], bars := [], mapSubtitle := "" })
      = updateAllDom sampleProvinces [2020, 2021] sampleRows mapSampleState
          sampleFeatures
          { mapPaths := [], trend := [], bars := [], mapSubtitle := "" } :=
  updateAll_idempotent sampleProvinces [2020, 2021] sampleRows mapSampleState
    sampleFeatures
    { mapPaths := [], trend := [], bars := [], mapSubtitle := "" }
    (by decide)

end FraudWatch
